import Mathlib

/-!
# Verification of the stock-ai paper-trading engine

A shallow embedding of the order-execution and risk-enforcement engine of the
`stock-ai` repository (`trading.py` together with the portfolio persistence layer
of `database.py`), over exact rational arithmetic.

* Money and share counts are `ℚ`; Python's `round(x, n)` (round-half-to-even)
  is modelled by `round2` / `round4` below.
* The quote source (`market_data.fetch_quotes`) is a parameter
  `quotes : String → Option Quote`; `none` models a symbol the source cannot
  price (absent from the returned dict).
* The SQLite tables behind `database.py` are modelled by a `PState` record:
  the `portfolio` table is a list of rows keyed by symbol, `cash_balance` a
  rational, and the `trades` table an append-only list.
* `execute_buy` / `execute_sell` return the post-call state together with a
  structured rendering of the result dict; each error constructor carries
  exactly the numbers that appear in the corresponding error message of the
  source.
-/

/-- Round-half-to-even to an integer, the rounding used by Python's `round`. -/
def roundHalfEven (q : ℚ) : ℤ :=
  let f : ℤ := ⌊q⌋
  if q - f < 1/2 then f
  else if 1/2 < q - f then f + 1
  else if f % 2 = 0 then f else f + 1

/-- Python's `round(x, 2)`: round half-to-even at two decimal places, over
exact rationals (the spec's decimal-money model). Note: CPython's float
`round` applies half-even to the binary64 value of `x`, which can land just
off an exact decimal tie (e.g. `150 * 1.0001` is slightly below 150.015 as a
double and rounds to 150.01 where this model gives 150.02), so at decimal
ties the float program can come out one cent lower. -/
def round2 (q : ℚ) : ℚ := (roundHalfEven (q * 100) : ℚ) / 100

/-- Python's `round(x, 4)`: round half-to-even at four decimal places. -/
def round4 (q : ℚ) : ℚ := (roundHalfEven (q * 10000) : ℚ) / 10000

/-- Python's `int(x)` on a float: truncation toward zero. -/
def truncQ (q : ℚ) : ℤ := if 0 ≤ q then ⌊q⌋ else ⌈q⌉

/-- The fields of a quote dict used by the trading engine
(`market_data.fetch_quotes` result entries). -/
structure Quote where
  price : ℚ
  change_pct : ℚ
deriving DecidableEq

/-- A row of the `portfolio` table (`symbol` is a UNIQUE key). -/
structure Holding where
  symbol : String
  shares : ℚ
  avg_cost : ℚ
deriving DecidableEq

/-- A row of the append-only `trades` table. -/
structure TradeRec where
  symbol : String
  action : String
  shares : ℚ
  price : ℚ
  total : ℚ
  reasoning : String
deriving DecidableEq

/-- The ledger state persisted by `database.py`: cash balance, the
`portfolio` table, and the `trades` log. -/
structure PState where
  cash : ℚ
  table : List Holding
  trades : List TradeRec
deriving DecidableEq

/-- `database.get_holding`: `SELECT * FROM portfolio WHERE symbol = ?`
(first row with the symbol, regardless of its share count). -/
def get_holding (table : List Holding) (symbol : String) : Option Holding :=
  table.find? (fun h => h.symbol == symbol)

/-- `database.update_holding`: delete the row when `shares <= 0`, otherwise
upsert `(symbol, shares, avg_cost)`. -/
def update_holding (table : List Holding) (symbol : String)
    (shares avg_cost : ℚ) : List Holding :=
  if shares ≤ 0 then
    table.filter (fun h => h.symbol != symbol)
  else if (get_holding table symbol).isSome then
    table.map (fun h => if h.symbol == symbol then ⟨symbol, shares, avg_cost⟩ else h)
  else
    table ++ [⟨symbol, shares, avg_cost⟩]

/-- Stable insertion of `x` into a list sorted by `le` (helper for `sortOn`). -/
def insertOn (le : α → α → Bool) (x : α) : List α → List α
  | [] => [x]
  | y :: ys => if le x y then x :: y :: ys else y :: insertOn le x ys

/-- A stable sort placing `a` before `b` whenever `le a b`; models both
SQLite's `ORDER BY` and Python's stable `sorted`. -/
def sortOn (le : α → α → Bool) : List α → List α
  | [] => []
  | x :: xs => insertOn le x (sortOn le xs)

/-- `database.get_portfolio`:
`SELECT * FROM portfolio WHERE shares > 0 ORDER BY symbol`. -/
def get_portfolio (σ : PState) : List Holding :=
  sortOn (fun a b => a.symbol ≤ b.symbol)
    (σ.table.filter (fun h => 0 < h.shares))

/-- `trading.SLIPPAGE_PCT = 0.01` (percent). -/
def SLIPPAGE_PCT : ℚ := 1/100

/-- A risk profile's limits (`trading.RISK_PROFILES` values). -/
structure RiskLimits where
  max_position_pct : ℚ
  min_cash_pct : ℚ
  max_holdings : ℕ
deriving DecidableEq

/-- `RISK_PROFILES["safe"]`. -/
def safe_limits : RiskLimits := ⟨10, 30, 5⟩

/-- `RISK_PROFILES["moderate"]`. -/
def moderate_limits : RiskLimits := ⟨20, 15, 10⟩

/-- `RISK_PROFILES["aggressive"]`. -/
def aggressive_limits : RiskLimits := ⟨35, 5, 15⟩

/-- The `trading.RISK_PROFILES` dict as a partial lookup. -/
def RISK_PROFILES (profile : String) : Option RiskLimits :=
  if profile = "safe" then some safe_limits
  else if profile = "moderate" then some moderate_limits
  else if profile = "aggressive" then some aggressive_limits
  else none

/-- `RISK_PROFILES.get(risk_profile, RISK_PROFILES["moderate"])`. -/
def limits_for (profile : String) : RiskLimits :=
  (RISK_PROFILES profile).getD moderate_limits

/-- Buy execution price: `round(price * (1 + SLIPPAGE_PCT / 100), 2)`. -/
def execPriceBuy (price : ℚ) : ℚ := round2 (price * (1 + SLIPPAGE_PCT / 100))

/-- Sell execution price: `round(price * (1 - SLIPPAGE_PCT / 100), 2)`. -/
def execPriceSell (price : ℚ) : ℚ := round2 (price * (1 - SLIPPAGE_PCT / 100))

/-- `all_quotes.get(sym, {}).get("price", fallback)`: the live price when the
quote source returned one, the fallback otherwise. -/
def priceOr (quotes : String → Option Quote) (symbol : String) (fallback : ℚ) : ℚ :=
  match quotes symbol with
  | some qt => qt.price
  | none => fallback

/-- `sum(h["shares"] * all_quotes.get(h["symbol"], {}).get("price", h["avg_cost"])
for h in portfolio)` (execute_buy, lines 48-51). -/
def totalMarketValue (quotes : String → Option Quote) (portfolio : List Holding) : ℚ :=
  (portfolio.map (fun h => h.shares * priceOr quotes h.symbol h.avg_cost)).sum

/-- The value of the existing position in `symbol` at `exec_price`
(execute_buy, lines 55-58), 0 when there is no holding. -/
def currentPositionValue (σ : PState) (symbol : String) (exec_price : ℚ) : ℚ :=
  match get_holding σ.table symbol with
  | some h => h.shares * exec_price
  | none => 0

/-- `set(h["symbol"] for h in portfolio if h["shares"] > 0)`
(execute_buy, line 80), as a duplicate-free list. -/
def distinctSymbols (portfolio : List Holding) : List String :=
  ((portfolio.filter (fun h => 0 < h.shares)).map (fun h => h.symbol)).dedup

/-- Structured rendering of the dict returned by `execute_buy`: one
constructor per `return`, carrying the numbers of that branch's payload. -/
inductive BuyResult
  /-- `"Could not get price for {symbol}"` -/
  | quoteUnavailable (symbol : String)
  /-- `"Not enough cash. Need ${total_cost}, have ${cash}"`
  (the branch taken when `max_shares <= 0`) -/
  | cashShortNoAffordable (need cashHeld : ℚ)
  /-- `"Not enough cash for {shares} shares. Max affordable: {max_shares} shares"` -/
  | cashShort (requested : ℚ) (maxAffordable : ℤ)
  /-- `"Risk limit: {symbol} would be {position_pct}% of portfolio (max
  {max_position_pct}%...). Max additional shares: {max_shares}"` -/
  | riskPosition (position_pct max_position_pct : ℚ) (maxAdditionalShares : ℤ)
  /-- `"Risk limit: cash would drop to {new_cash_pct}% (min {min_cash_pct}%...)"` -/
  | riskCashReserve (new_cash_pct min_cash_pct : ℚ)
  /-- `"Risk limit: already at {n} positions (max {max_holdings}...)"` -/
  | riskMaxHoldings (count maxHoldings : ℕ)
  /-- the `success: True` dict -/
  | filled (symbol : String) (shares price total new_cash new_shares avg_cost : ℚ)
deriving DecidableEq

/-- The `success` field of the buy result dict. -/
def BuyResult.success : BuyResult → Bool
  | .filled _ _ _ _ _ _ _ => true
  | _ => false

/-- Structured rendering of the dict returned by `execute_sell`. -/
inductive SellResult
  /-- `"No shares of {symbol} to sell"` -/
  | noPosition (symbol : String)
  /-- `"Only have {held} shares of {symbol}, tried to sell {requested}"` -/
  | sharesShort (held requested : ℚ)
  /-- `"Could not get price for {symbol}"` -/
  | quoteUnavailable (symbol : String)
  /-- the `success: True` dict -/
  | sold (symbol : String) (shares price total pnl new_cash remaining_shares : ℚ)
deriving DecidableEq

/-- The `success` field of the sell result dict. -/
def SellResult.success : SellResult → Bool
  | .sold _ _ _ _ _ _ _ => true
  | _ => false

/-- `trading.execute_buy`, returning the ledger state after the call together
with the result. Mirrors the source line by line: quote lookup, slippage,
cash check (with max-affordable payload), the three risk-profile checks, then
the cash debit, holding upsert (weighted-average cost) and trade append. -/
def execute_buy (quotes : String → Option Quote) (risk_profile : String)
    (σ : PState) (symbol : String) (shares : ℚ) (reasoning : String) :
    PState × BuyResult :=
  match quotes symbol with
  | none => (σ, .quoteUnavailable symbol)
  | some qt =>
    let exec_price := execPriceBuy qt.price
    let total_cost := round2 (exec_price * shares)
    let cash := σ.cash
    if total_cost > cash then
      let max_shares := truncQ (cash / exec_price)
      if max_shares ≤ 0 then (σ, .cashShortNoAffordable total_cost cash)
      else (σ, .cashShort shares max_shares)
    else
      let limits := limits_for risk_profile
      let portfolio := get_portfolio σ
      let total_portfolio := cash + totalMarketValue quotes portfolio
      let current_position_value := currentPositionValue σ symbol exec_price
      let new_position_value := current_position_value + total_cost
      let position_pct :=
        if 0 < total_portfolio then new_position_value / total_portfolio * 100 else 100
      if position_pct > limits.max_position_pct then
        let max_allowed := total_portfolio * limits.max_position_pct / 100
          - current_position_value
        let max_shares := if 0 < max_allowed then truncQ (max_allowed / exec_price) else 0
        (σ, .riskPosition position_pct limits.max_position_pct max_shares)
      else
        let new_cash_after := cash - total_cost
        let new_cash_pct :=
          if 0 < total_portfolio then new_cash_after / total_portfolio * 100 else 0
        if new_cash_pct < limits.min_cash_pct then
          (σ, .riskCashReserve new_cash_pct limits.min_cash_pct)
        else
          let distinct := distinctSymbols portfolio
          if symbol ∉ distinct ∧ distinct.length ≥ limits.max_holdings then
            (σ, .riskMaxHoldings distinct.length limits.max_holdings)
          else
            let new_cash := round2 (cash - total_cost)
            match get_holding σ.table symbol with
            | some ex =>
              let new_shares := ex.shares + shares
              let new_avg :=
                round2 ((ex.shares * ex.avg_cost + shares * exec_price) / new_shares)
              (⟨new_cash, update_holding σ.table symbol new_shares new_avg,
                 σ.trades ++ [⟨symbol, "buy", shares, exec_price, total_cost, reasoning⟩]⟩,
               .filled symbol shares exec_price total_cost new_cash new_shares new_avg)
            | none =>
              (⟨new_cash, update_holding σ.table symbol shares exec_price,
                 σ.trades ++ [⟨symbol, "buy", shares, exec_price, total_cost, reasoning⟩]⟩,
               .filled symbol shares exec_price total_cost new_cash shares exec_price)

/-- `trading.execute_sell`: holding and share-count checks, quote lookup,
slippage, P&L, then cash credit, holding update (deleting a non-positive
remainder) and trade append. -/
def execute_sell (quotes : String → Option Quote)
    (σ : PState) (symbol : String) (shares : ℚ) (reasoning : String) :
    PState × SellResult :=
  match get_holding σ.table symbol with
  | none => (σ, .noPosition symbol)
  | some ex =>
    if ex.shares ≤ 0 then (σ, .noPosition symbol)
    else if shares > ex.shares then (σ, .sharesShort ex.shares shares)
    else
      match quotes symbol with
      | none => (σ, .quoteUnavailable symbol)
      | some qt =>
        let exec_price := execPriceSell qt.price
        let total_proceeds := round2 (exec_price * shares)
        let cost_basis := ex.avg_cost * shares
        let pnl := round2 (total_proceeds - cost_basis)
        let new_cash := round2 (σ.cash + total_proceeds)
        let remaining_shares := round4 (ex.shares - shares)
        (⟨new_cash, update_holding σ.table symbol remaining_shares ex.avg_cost,
           σ.trades ++ [⟨symbol, "sell", shares, exec_price, total_proceeds, reasoning⟩]⟩,
         .sold symbol shares exec_price total_proceeds pnl new_cash remaining_shares)

/-- A per-holding entry of the portfolio summary. -/
structure HoldingView where
  symbol : String
  shares : ℚ
  avg_cost : ℚ
  current_price : ℚ
  cost_basis : ℚ
  market_value : ℚ
  pnl : ℚ
  pnl_pct : ℚ
  day_change_pct : ℚ
deriving DecidableEq

/-- The per-holding enrichment loop body of `get_portfolio_summary`
(lines 190-222): live pricing when a quote exists, otherwise the
`current_price = avg_cost, pnl = 0, day_change = 0` fallback. -/
def enrichHolding (quotes : String → Option Quote) (h : Holding) : HoldingView :=
  let cost_basis := round2 (h.shares * h.avg_cost)
  match quotes h.symbol with
  | some qt =>
    let market_value := round2 (h.shares * qt.price)
    let pnl := round2 (market_value - cost_basis)
    let pnl_pct := if cost_basis ≠ 0 then round2 (pnl / cost_basis * 100) else 0
    ⟨h.symbol, h.shares, h.avg_cost, qt.price, cost_basis, market_value, pnl, pnl_pct,
     qt.change_pct⟩
  | none =>
    ⟨h.symbol, h.shares, h.avg_cost, h.avg_cost, cost_basis, cost_basis, 0, 0, 0⟩

/-- The summary dict. `total_market_value` is `none` in the empty-portfolio
branch, whose dict omits that key. -/
structure Summary where
  cash : ℚ
  holdings : List HoldingView
  total_value : ℚ
  total_invested : ℚ
  total_market_value : Option ℚ
  total_pnl : ℚ
  total_pnl_pct : ℚ
deriving DecidableEq

/-- `trading.get_portfolio_summary`. -/
def get_portfolio_summary (quotes : String → Option Quote) (σ : PState) : Summary :=
  let holdings := get_portfolio σ
  if holdings.isEmpty then
    ⟨σ.cash, [], σ.cash, 0, none, 0, 0⟩
  else
    let enriched := holdings.map (enrichHolding quotes)
    let total_market_value := (enriched.map (fun v => v.market_value)).sum
    let total_cost_basis := (enriched.map (fun v => v.cost_basis)).sum
    let total_value := round2 (σ.cash + total_market_value)
    let total_pnl := round2 (total_market_value - total_cost_basis)
    let total_pnl_pct :=
      if total_cost_basis ≠ 0 then round2 (total_pnl / total_cost_basis * 100) else 0
    ⟨σ.cash,
     sortOn (fun a b => b.market_value ≤ a.market_value) enriched,
     total_value, round2 total_cost_basis, some (round2 total_market_value),
     total_pnl, total_pnl_pct⟩

/-- The share count of `symbol` observable in the ledger (0 when no row). -/
def held_shares (σ : PState) (symbol : String) : ℚ :=
  match get_holding σ.table symbol with
  | some h => h.shares
  | none => 0

/-! ## Helper lemmas -/

theorem limits_for_safe : limits_for "safe" = safe_limits := rfl

theorem limits_for_moderate : limits_for "moderate" = moderate_limits := rfl

theorem limits_for_aggressive : limits_for "aggressive" = aggressive_limits := rfl

/-- Every profile's position limit is at most 35 % (the aggressive cap). -/
theorem limits_for_max_position_le (profile : String) :
    (limits_for profile).max_position_pct ≤ 35 := by
  unfold limits_for RISK_PROFILES
  split_ifs <;> norm_num [safe_limits, moderate_limits, aggressive_limits]

theorem roundHalfEven_intCast (n : ℤ) : roundHalfEven (n : ℚ) = n := by
  norm_num [roundHalfEven]

/-- `round2` fixes every whole number of cents. -/
theorem round2_eq_self {q : ℚ} (h : ∃ n : ℤ, q = (n : ℚ) / 100) : round2 q = q := by
  obtain ⟨n, rfl⟩ := h
  rw [round2, div_mul_cancel₀ _ (by norm_num : (100 : ℚ) ≠ 0), roundHalfEven_intCast]

/-- `round2` always produces a whole number of cents. -/
theorem round2_shape (q : ℚ) : ∃ n : ℤ, round2 q = (n : ℚ) / 100 :=
  ⟨roundHalfEven (q * 100), rfl⟩

/-- `round4` fixes every multiple of 1/10000. -/
theorem round4_eq_self {q : ℚ} (h : ∃ n : ℤ, q = (n : ℚ) / 10000) : round4 q = q := by
  obtain ⟨n, rfl⟩ := h
  rw [round4, div_mul_cancel₀ _ (by norm_num : (10000 : ℚ) ≠ 0), roundHalfEven_intCast]

theorem mem_insertOn {le : α → α → Bool} {x a : α} {l : List α} :
    a ∈ insertOn le x l ↔ a = x ∨ a ∈ l := by
  induction l with
  | nil => simp [insertOn]
  | cons y ys ih =>
    simp only [insertOn]
    split
    · simp
    · simp [ih]
      tauto

theorem mem_sortOn {le : α → α → Bool} {a : α} {l : List α} :
    a ∈ sortOn le l ↔ a ∈ l := by
  induction l with
  | nil => simp [sortOn]
  | cons x xs ih => simp [sortOn, mem_insertOn, ih]

theorem enrichHolding_symbol (quotes : String → Option Quote) (h : Holding) :
    (enrichHolding quotes h).symbol = h.symbol := by
  rcases hq : quotes h.symbol with _ | qt <;> simp [enrichHolding, hq]

/-- Case analysis of `execute_buy`: a rejection returns the state untouched, a
fill appends exactly one trade record. -/
theorem execute_buy_pair (quotes : String → Option Quote) (risk_profile : String)
    (σ : PState) (symbol : String) (shares : ℚ) (reasoning : String)
    (σ' : PState) (r : BuyResult)
    (h : execute_buy quotes risk_profile σ symbol shares reasoning = (σ', r)) :
    (r.success = false → σ' = σ)
    ∧ (r.success = true → ∃ t, σ'.trades = σ.trades ++ [t]) := by
  unfold execute_buy at h
  rcases hq : quotes symbol with _ | qt <;> rw [hq] at h
  · injection h with h1 h2
    subst h1; subst h2
    simp [BuyResult.success]
  · simp only [] at h
    repeat' split at h
    all_goals (
      injection h with h1 h2
      subst h1; subst h2
      first
        | exact ⟨fun _ => rfl, by simp [BuyResult.success]⟩
        | exact ⟨by simp [BuyResult.success], fun _ => ⟨_, rfl⟩⟩)

/-- Case analysis of `execute_sell`: a rejection returns the state untouched, a
fill appends exactly one trade record. -/
theorem execute_sell_pair (quotes : String → Option Quote)
    (σ : PState) (symbol : String) (shares : ℚ) (reasoning : String)
    (σ' : PState) (r : SellResult)
    (h : execute_sell quotes σ symbol shares reasoning = (σ', r)) :
    (r.success = false → σ' = σ)
    ∧ (r.success = true → ∃ t, σ'.trades = σ.trades ++ [t]) := by
  unfold execute_sell at h
  rcases hx : get_holding σ.table symbol with _ | ex <;> rw [hx] at h
  · injection h with h1 h2
    subst h1; subst h2
    simp [SellResult.success]
  · simp only [] at h
    repeat' split at h
    all_goals (
      injection h with h1 h2
      subst h1; subst h2
      first
        | exact ⟨fun _ => rfl, by simp [SellResult.success]⟩
        | exact ⟨by simp [SellResult.success], fun _ => ⟨_, rfl⟩⟩)

/-! ## Claim C1 -/

/-- C1: every order (buy or sell) that returns a rejection leaves the cash
balance, the holdings and the trade log exactly as they were before the call,
and a `Trade` record is appended exactly once per successful execution and
never for a rejected order. -/
theorem rejection_leaves_ledger_unchanged_fill_appends_one_trade
    (quotes : String → Option Quote) (risk_profile : String) (σ : PState)
    (symbol : String) (shares : ℚ) (reasoning : String) :
    ((execute_buy quotes risk_profile σ symbol shares reasoning).2.success = false →
       (execute_buy quotes risk_profile σ symbol shares reasoning).1 = σ)
    ∧ ((execute_buy quotes risk_profile σ symbol shares reasoning).2.success = true →
       ∃ t, (execute_buy quotes risk_profile σ symbol shares reasoning).1.trades
             = σ.trades ++ [t])
    ∧ ((execute_sell quotes σ symbol shares reasoning).2.success = false →
       (execute_sell quotes σ symbol shares reasoning).1 = σ)
    ∧ ((execute_sell quotes σ symbol shares reasoning).2.success = true →
       ∃ t, (execute_sell quotes σ symbol shares reasoning).1.trades
             = σ.trades ++ [t]) := by
  have hb := execute_buy_pair quotes risk_profile σ symbol shares reasoning _ _ rfl
  have hs := execute_sell_pair quotes σ symbol shares reasoning _ _ rfl
  exact ⟨hb.1, hb.2, hs.1, hs.2⟩

/-- Witness for C1: with an unreachable quote source, both a buy of 1 AAPL and
a sell of 1 AAPL on a ledger holding only cash are rejected and leave the
ledger exactly as it was. -/
theorem rejection_leaves_ledger_unchanged_fill_appends_one_trade_witness :
    (execute_buy (fun _ => none) "moderate" ⟨100, [], []⟩ "AAPL" 1 "").1
      = (⟨100, [], []⟩ : PState)
    ∧ (execute_sell (fun _ => none) ⟨100, [], []⟩ "AAPL" 1 "").1
      = (⟨100, [], []⟩ : PState) := by
  have h := rejection_leaves_ledger_unchanged_fill_appends_one_trade
    (fun _ => none) "moderate" ⟨100, [], []⟩ "AAPL" 1 ""
  exact ⟨h.1 rfl, h.2.2.1 rfl⟩

/-! ## Claim C2 -/

/-- C2: for every accepted buy, the pro-forma position percentage of the
bought symbol — (existing position value at `exec_price` plus `total_cost`)
divided by the pro-forma total portfolio value (cash plus the market value of
all current holdings, live quotes with `average_cost` fallback), times 100 —
does not exceed the active profile's `max_position_pct` by more than 1e-6. -/
theorem accepted_buy_position_pct_within_limit
    (quotes : String → Option Quote) (risk_profile : String) (σ : PState)
    (symbol : String) (shares : ℚ) (reasoning : String) (qt : Quote)
    (hq : quotes symbol = some qt)
    (hs : (execute_buy quotes risk_profile σ symbol shares reasoning).2.success = true) :
    (currentPositionValue σ symbol (execPriceBuy qt.price)
        + round2 (execPriceBuy qt.price * shares)) /
      (σ.cash + totalMarketValue quotes (get_portfolio σ)) * 100
    ≤ (limits_for risk_profile).max_position_pct + 1/1000000 := by
  unfold execute_buy at hs
  rw [hq] at hs
  simp only [] at hs
  repeat' split at hs
  all_goals simp [BuyResult.success] at hs
  all_goals linarith [limits_for_max_position_le risk_profile]

/-- Quote source pricing MSFT at $100 (C2 witness scenario). -/
def msftQuotes : String → Option Quote :=
  fun s => if s = "MSFT" then some ⟨100, 0⟩ else none

/-- $50,000 cash, no holdings (C2 witness scenario). -/
def msftState : PState := ⟨50000, [], []⟩

/-- Witness for C2: a buy of 10 MSFT at a quoted $100 with $50,000 cash under
the moderate profile is accepted, and its pro-forma position percentage is
within the 20 % limit. -/
theorem accepted_buy_position_pct_within_limit_witness :
    (currentPositionValue msftState "MSFT" (execPriceBuy 100)
        + round2 (execPriceBuy 100 * 10)) /
      (msftState.cash + totalMarketValue msftQuotes (get_portfolio msftState)) * 100
    ≤ (limits_for "moderate").max_position_pct + 1/1000000 := by
  exact accepted_buy_position_pct_within_limit msftQuotes "moderate" msftState
    "MSFT" 10 "" ⟨100, 0⟩ rfl
    (by norm_num [execute_buy, msftQuotes, msftState, execPriceBuy, round2,
      roundHalfEven, SLIPPAGE_PCT, truncQ, limits_for_moderate, moderate_limits,
      get_portfolio, sortOn, insertOn, totalMarketValue, priceOr,
      currentPositionValue, get_holding, distinctSymbols, update_holding,
      BuyResult.success, List.filter, List.find?, List.dedup_nil])

/-! ## Claim C3 -/

/-- Quote source pricing AAPL at $10.01 (C3 scenario: `exec_price` comes out
to $10.01 after slippage and 2-decimal rounding). -/
def buyRoundQuotes : String → Option Quote :=
  fun s => if s = "AAPL" then some ⟨1001/100, 0⟩ else none

/-- $100,000 cash and an existing holding of 1 AAPL at average cost $10
(C3 scenario). -/
def buyRoundState : PState := ⟨100000, [⟨"AAPL", 1, 10⟩], []⟩

/-- Counterexample to C3: buying 2 more AAPL at `exec_price` $10.01 on top of
1 share at average cost $10 succeeds and stores `average_cost` $10.01, but the
exact quantity-weighted mean (1×10 + 2×10.01)/3 = 10.00666… is not $10.01:
the code rounds the mean to 2 decimals rather than keeping it exact. -/
theorem buy_average_cost_not_exact_mean_counterexample :
    (execute_buy buyRoundQuotes "moderate" buyRoundState "AAPL" 2 "").2
      = .filled "AAPL" 2 (1001/100) (2002/100) (9997998/100) 3 (1001/100)
    ∧ ((1001/100 : ℚ) ≠ (1 * 10 + 2 * (1001/100)) / (1 + 2)) := by
  constructor
  · norm_num [execute_buy, buyRoundQuotes, buyRoundState, execPriceBuy, round2,
      roundHalfEven, SLIPPAGE_PCT, truncQ, limits_for_moderate, moderate_limits,
      get_portfolio, sortOn, insertOn, totalMarketValue, priceOr,
      currentPositionValue, get_holding, distinctSymbols, update_holding,
      List.filter, List.find?, List.dedup_cons_of_not_mem, List.dedup_nil]
  · norm_num

/-- C3 (amended): for every successful buy, `new_cash = old_cash − total_cost`
exactly whenever the old cash balance is a whole number of cents (as the
engine maintains), and the stored `average_cost` is the quantity-weighted mean
(old×avg + shares×exec_price)/(old+shares) rounded to 2 decimals — `exec_price`
itself when there was no prior holding — not the exact mean. -/
theorem buy_debits_exact_cash_and_rounds_average_cost
    (quotes : String → Option Quote) (risk_profile : String) (σ : PState)
    (symbol : String) (shares : ℚ) (reasoning : String) (σ' : PState)
    (sym : String) (sh p t nc ns na : ℚ)
    (h : execute_buy quotes risk_profile σ symbol shares reasoning
          = (σ', .filled sym sh p t nc ns na))
    (hcash : ∃ n : ℤ, σ.cash = (n : ℚ) / 100) :
    nc = σ.cash - t
    ∧ (get_holding σ.table symbol = none → na = p)
    ∧ (∀ ex, get_holding σ.table symbol = some ex →
        na = round2 ((ex.shares * ex.avg_cost + shares * p) / (ex.shares + shares))) := by
  obtain ⟨n, hn⟩ := hcash
  unfold execute_buy at h
  rcases hq : quotes symbol with _ | qt <;> rw [hq] at h
  · exact BuyResult.noConfusion (congrArg Prod.snd h)
  · simp only [] at h
    repeat' split at h
    all_goals try exact BuyResult.noConfusion (congrArg Prod.snd h)
    all_goals (
      have h2 := congrArg Prod.snd h
      injection h2 with e1 e2 e3 e4 e5 e6 e7
      subst e1; subst e2; subst e3; subst e4; subst e5; subst e6; subst e7
      obtain ⟨m, hm⟩ := round2_shape (execPriceBuy qt.price * shares))
    all_goals first
      | (rename_i ex hex
         refine ⟨by rw [hn, hm]; exact round2_eq_self ⟨n - m, by push_cast; ring⟩,
                 fun hnone => Option.noConfusion (hex.symm.trans hnone),
                 fun ex2 hsome => ?_⟩
         have he := hex.symm.trans hsome
         injection he with he2
         rw [← he2])
      | (rename_i hex
         refine ⟨by rw [hn, hm]; exact round2_eq_self ⟨n - m, by push_cast; ring⟩,
                 fun _ => rfl,
                 fun ex2 hsome => Option.noConfusion (hex.symm.trans hsome)⟩)

/-- Witness for C3 (amended): the concrete buy of 2 AAPL on top of 1 held
share debits cash exactly and stores the rounded weighted mean. -/
theorem buy_debits_exact_cash_and_rounds_average_cost_witness :
    (9997998/100 : ℚ) = buyRoundState.cash - 2002/100
    ∧ (get_holding buyRoundState.table "AAPL" = none → (1001/100 : ℚ) = 1001/100)
    ∧ (∀ ex, get_holding buyRoundState.table "AAPL" = some ex →
        (1001/100 : ℚ)
          = round2 ((ex.shares * ex.avg_cost + 2 * (1001/100)) / (ex.shares + 2))) := by
  have h2 : (execute_buy buyRoundQuotes "moderate" buyRoundState "AAPL" 2 "").2
      = .filled "AAPL" 2 (1001/100) (2002/100) (9997998/100) 3 (1001/100) := by
    norm_num [execute_buy, buyRoundQuotes, buyRoundState, execPriceBuy, round2,
      roundHalfEven, SLIPPAGE_PCT, truncQ, limits_for_moderate, moderate_limits,
      get_portfolio, sortOn, insertOn, totalMarketValue, priceOr,
      currentPositionValue, get_holding, distinctSymbols, update_holding,
      List.filter, List.find?, List.dedup_cons_of_not_mem, List.dedup_nil]
  exact buy_debits_exact_cash_and_rounds_average_cost buyRoundQuotes "moderate"
    buyRoundState "AAPL" 2 ""
    (execute_buy buyRoundQuotes "moderate" buyRoundState "AAPL" 2 "").1
    "AAPL" 2 (1001/100) (2002/100) (9997998/100) 3 (1001/100)
    (Prod.ext rfl h2) ⟨10000000, by norm_num [buyRoundState]⟩

/-- Rows whose symbol is filtered away are no longer found. -/
theorem find?_filter_ne (l : List Holding) (s : String) :
    (l.filter fun h => h.symbol != s).find? (fun h => h.symbol == s) = none := by
  induction l with
  | nil => rfl
  | cons x xs ih =>
    rcases hx : (x.symbol == s) with _ | _
    · rw [List.filter_cons, if_pos (by simp [bne, hx] : ((fun h => h.symbol != s) x) = true),
          List.find?_cons_of_neg _ (by simp [hx])]
      exact ih
    · rw [List.filter_cons, if_neg (by simp [bne, hx])]
      exact ih

/-- After the upsert's in-place replacement, the symbol's row holds the new
shares and average cost. -/
theorem find?_map_replace (l : List Holding) (s : String) (sh av : ℚ)
    (hf : (l.find? fun h => h.symbol == s).isSome = true) :
    (l.map fun h => if h.symbol == s then ⟨s, sh, av⟩ else h).find?
        (fun h => h.symbol == s) = some ⟨s, sh, av⟩ := by
  induction l with
  | nil => simp [List.find?] at hf
  | cons x xs ih =>
    rcases hx : (x.symbol == s) with _ | _
    · rw [List.find?_cons_of_neg _ (by simp [hx])] at hf
      rw [List.map_cons, if_neg (by simp [hx] : ¬ (x.symbol == s) = true),
          List.find?_cons_of_neg _ (by simp [hx])]
      exact ih hf
    · rw [List.map_cons, if_pos hx, List.find?_cons_of_pos _ (by simp)]

/-- `update_holding` with non-positive shares deletes the row. -/
theorem get_holding_update_nonpos (table : List Holding) (symbol : String)
    (sh av : ℚ) (h0 : sh ≤ 0) :
    get_holding (update_holding table symbol sh av) symbol = none := by
  unfold update_holding
  rw [if_pos h0]
  exact find?_filter_ne table symbol

/-- `update_holding` with positive shares on an existing row stores exactly
the new shares and average cost. -/
theorem get_holding_update_pos (table : List Holding) (symbol : String)
    (sh av : ℚ) (h0 : 0 < sh) (hf : (get_holding table symbol).isSome = true) :
    get_holding (update_holding table symbol sh av) symbol = some ⟨symbol, sh, av⟩ := by
  unfold update_holding
  rw [if_neg (by linarith), if_pos hf]
  exact find?_map_replace table symbol sh av hf

/-- `update_holding` preserves the `shares > 0` table invariant. -/
theorem update_holding_keeps_positive (table : List Holding) (symbol : String)
    (sh av : ℚ) (hinv : ∀ h ∈ table, 0 < h.shares) :
    ∀ h2 ∈ update_holding table symbol sh av, 0 < h2.shares := by
  intro h2 hmem
  unfold update_holding at hmem
  split at hmem
  · exact hinv h2 (List.mem_of_mem_filter hmem)
  · split at hmem
    · obtain ⟨x, hx, he⟩ := List.mem_map.mp hmem
      rename_i hsh _
      split at he
      · rw [← he]
        dsimp only
        linarith
      · rw [← he]
        exact hinv x hx
    · rename_i hsh _
      rcases List.mem_append.mp hmem with hl | hr
      · exact hinv h2 hl
      · rw [List.mem_singleton.mp hr]
        dsimp only
        linarith

theorem held_shares_of_none {σ : PState} {symbol : String}
    (h : get_holding σ.table symbol = none) : held_shares σ symbol = 0 := by
  unfold held_shares
  rw [h]

theorem held_shares_of_some {σ : PState} {symbol : String} {ex : Holding}
    (h : get_holding σ.table symbol = some ex) : held_shares σ symbol = ex.shares := by
  unfold held_shares
  rw [h]

/-! ## Claim C4 -/

/-- Quote source pricing TSLA at $200 (C4/C5 scenarios). -/
def tslaQuotes : String → Option Quote :=
  fun s => if s = "TSLA" then some ⟨200, 0⟩ else none

/-- $1,000 cash and a holding of 10 TSLA at average cost $200 (C4/C5
scenarios). -/
def tslaState : PState := ⟨1000, [⟨"TSLA", 10, 200⟩], []⟩

/-- Counterexample to C4: a sell of 0 shares passes every check and returns
success, yet the held share count does not strictly decrease — it is exactly
the 10 shares held before, so "for every successful sell the held share count
strictly decreases" fails as stated. -/
theorem sell_zero_shares_succeeds_without_decrease_counterexample :
    (execute_sell tslaQuotes tslaState "TSLA" 0 "").2
      = .sold "TSLA" 0 (19998/100) 0 0 1000 10
    ∧ held_shares (execute_sell tslaQuotes tslaState "TSLA" 0 "").1 "TSLA"
      = held_shares tslaState "TSLA" := by
  constructor <;>
  norm_num [execute_sell, tslaQuotes, tslaState, execPriceSell, round2, round4,
    roundHalfEven, SLIPPAGE_PCT, get_holding, update_holding, held_shares,
    List.find?, List.filter]

/-- C4 (amended): for every successful sell of a positive share count, with
the sold and held share counts expressible at the 4-decimal precision the
ledger uses, the observable held share count decreases by exactly the sold
amount (strictly), the holding's `average_cost` is unchanged whenever the
holding survives, and the reported realized P&L is
`round2 (total_proceeds − average_cost × shares)`. -/
theorem sell_decrements_shares_avg_cost_unchanged_pnl_rounded
    (quotes : String → Option Quote) (σ : PState) (symbol : String)
    (shares : ℚ) (reasoning : String) (σ' : PState)
    (sym : String) (sh p t pnl nc rem : ℚ)
    (ex : Holding) (hold : get_holding σ.table symbol = some ex)
    (hexsh : ∃ m : ℤ, ex.shares = (m : ℚ) / 10000)
    (hsh : ∃ n : ℤ, shares = (n : ℚ) / 10000)
    (hpos : 0 < shares)
    (h : execute_sell quotes σ symbol shares reasoning
          = (σ', .sold sym sh p t pnl nc rem)) :
    held_shares σ' symbol = held_shares σ symbol - shares
    ∧ held_shares σ' symbol < held_shares σ symbol
    ∧ pnl = round2 (t - ex.avg_cost * shares)
    ∧ (∀ h2, get_holding σ'.table symbol = some h2 → h2.avg_cost = ex.avg_cost) := by
  obtain ⟨m, hm⟩ := hexsh
  obtain ⟨n, hn⟩ := hsh
  unfold execute_sell at h
  rw [hold] at h
  simp only [] at h
  repeat' split at h
  all_goals try exact SellResult.noConfusion (congrArg Prod.snd h)
  all_goals (
    rw [Prod.mk.injEq] at h
    obtain ⟨h1, h2⟩ := h
    injection h2 with e1 e2 e3 e4 e5 e6 e7
    subst e1; subst e2; subst e3; subst e4; subst e5; subst e6; subst e7
    have hrem : round4 (ex.shares - shares) = ex.shares - shares :=
      round4_eq_self ⟨m - n, by rw [hm, hn]; push_cast; ring⟩
    have hheld : held_shares σ symbol = ex.shares := held_shares_of_some hold
    by_cases hz : ex.shares - shares ≤ 0
    · have hnone : get_holding σ'.table symbol = none := by
        rw [← h1]
        rw [show (round4 (ex.shares - shares)) = ex.shares - shares from hrem]
        exact get_holding_update_nonpos _ _ _ _ hz
      have hh0 : held_shares σ' symbol = 0 := held_shares_of_none hnone
      have hle : ¬ shares > ex.shares := by assumption
      refine ⟨?_, ?_, rfl, ?_⟩
      · rw [hh0, hheld]
        linarith
      · rw [hh0, hheld]
        linarith
      · intro h3 hs3
        rw [hnone] at hs3
        exact Option.noConfusion hs3
    · push_neg at hz
      have hsome : get_holding σ'.table symbol
            = some ⟨symbol, ex.shares - shares, ex.avg_cost⟩ := by
        rw [← h1]
        rw [show (round4 (ex.shares - shares)) = ex.shares - shares from hrem]
        exact get_holding_update_pos _ _ _ _ hz (by rw [hold]; rfl)
      have hh1 : held_shares σ' symbol = ex.shares - shares := held_shares_of_some hsome
      refine ⟨?_, ?_, rfl, ?_⟩
      · rw [hh1, hheld]
      · rw [hh1, hheld]
        linarith
      · intro h3 hs3
        rw [hsome] at hs3
        injection hs3 with hs4
        rw [← hs4])

/-- Witness for C4 (amended): selling 4 of 10 held TSLA at a quoted $200
leaves exactly 6 shares, a strict decrease, with the P&L formula satisfied. -/
theorem sell_decrements_shares_avg_cost_unchanged_pnl_rounded_witness :
    held_shares (execute_sell tslaQuotes tslaState "TSLA" 4 "").1 "TSLA"
      = held_shares tslaState "TSLA" - 4
    ∧ held_shares (execute_sell tslaQuotes tslaState "TSLA" 4 "").1 "TSLA"
      < held_shares tslaState "TSLA"
    ∧ (-2/25 : ℚ) = round2 (19998/25 - 200 * 4) := by
  have h2 : (execute_sell tslaQuotes tslaState "TSLA" 4 "").2
      = .sold "TSLA" 4 (19998/100) (19998/25) (-2/25) (44998/25) 6 := by
    norm_num [execute_sell, tslaQuotes, tslaState, execPriceSell, round2, round4,
      roundHalfEven, SLIPPAGE_PCT, get_holding, update_holding,
      List.find?, List.filter]
  have happ := sell_decrements_shares_avg_cost_unchanged_pnl_rounded
    tslaQuotes tslaState "TSLA" 4 ""
    (execute_sell tslaQuotes tslaState "TSLA" 4 "").1
    "TSLA" 4 (19998/100) (19998/25) (-2/25) (44998/25) 6
    ⟨"TSLA", 10, 200⟩ rfl ⟨100000, by norm_num⟩ ⟨40000, by norm_num⟩ (by norm_num)
    (Prod.ext rfl h2)
  exact ⟨happ.1, happ.2.1, happ.2.2.1⟩

/-! ## Claim C5 -/

/-- C5: no observable holding ever has `shares ≤ 0`: `update_holding`
preserves row positivity and stores a zero-share update as a deletion, and a
sell of exactly the remaining shares removes the holding entirely, after which
the portfolio summary omits that symbol. -/
theorem holdings_positive_zero_deleted_sell_all_removes :
    (∀ (table : List Holding) (symbol : String) (sh av : ℚ),
        (∀ h ∈ table, 0 < h.shares) →
        ∀ h2 ∈ update_holding table symbol sh av, 0 < h2.shares)
    ∧ (∀ (table : List Holding) (symbol : String) (av : ℚ),
        get_holding (update_holding table symbol 0 av) symbol = none)
    ∧ (∀ (quotes : String → Option Quote) (σ : PState) (symbol : String)
        (reasoning : String) (ex : Holding) (σ' : PState) (sym : String)
        (sh p t pnl nc rem : ℚ),
        get_holding σ.table symbol = some ex →
        execute_sell quotes σ symbol ex.shares reasoning
          = (σ', .sold sym sh p t pnl nc rem) →
        get_holding σ'.table symbol = none
        ∧ ∀ v ∈ (get_portfolio_summary quotes σ').holdings, v.symbol ≠ symbol) := by
  refine ⟨update_holding_keeps_positive,
          fun table symbol av => get_holding_update_nonpos table symbol 0 av le_rfl,
          ?_⟩
  intro quotes σ symbol reasoning ex σ' sym sh p t pnl nc rem hold h
  unfold execute_sell at h
  rw [hold] at h
  simp only [] at h
  repeat' split at h
  all_goals try exact SellResult.noConfusion (congrArg Prod.snd h)
  rw [Prod.mk.injEq] at h
  obtain ⟨h1, h2⟩ := h
  have hz : round4 (ex.shares - ex.shares) = 0 := by
    rw [sub_self]
    exact round4_eq_self ⟨0, by norm_num⟩
  have hnone : get_holding σ'.table symbol = none := by
    rw [← h1]
    show get_holding (update_holding σ.table symbol
      (round4 (ex.shares - ex.shares)) ex.avg_cost) symbol = none
    rw [hz]
    exact get_holding_update_nonpos _ _ _ _ le_rfl
  refine ⟨hnone, ?_⟩
  intro v hv
  simp only [get_portfolio_summary] at hv
  split at hv
  · simp at hv
  · simp only [List.mem_map] at hv
    rw [mem_sortOn] at hv
    obtain ⟨u, hu, hve⟩ := List.mem_map.mp hv
    have hu2 : u ∈ σ'.table := by
      unfold get_portfolio at hu
      rw [mem_sortOn] at hu
      exact (List.mem_filter.mp hu).1
    rw [← hve, enrichHolding_symbol]
    have hu3 : u ∈ update_holding σ.table symbol
        (round4 (ex.shares - ex.shares)) ex.avg_cost := by
      rw [← h1] at hu2
      exact hu2
    rw [hz] at hu3
    unfold update_holding at hu3
    rw [if_pos le_rfl] at hu3
    exact bne_iff_ne.mp (List.mem_filter.mp hu3).2

/-- Witness for C5: selling the full 10-share TSLA position removes its row,
and a positive-share upsert into a positive table keeps every row positive. -/
theorem holdings_positive_zero_deleted_sell_all_removes_witness :
    get_holding (execute_sell tslaQuotes tslaState "TSLA" 10 "").1.table "TSLA" = none
    ∧ 0 < (Holding.mk "MSFT" 3 50).shares := by
  constructor
  · have h2 : (execute_sell tslaQuotes tslaState "TSLA" 10 "").2
        = .sold "TSLA" 10 (19998/100) (9999/5) (-1/5) (14999/5) 0 := by
      norm_num [execute_sell, tslaQuotes, tslaState, execPriceSell, round2, round4,
        roundHalfEven, SLIPPAGE_PCT, get_holding, update_holding,
        List.find?, List.filter]
    exact (holdings_positive_zero_deleted_sell_all_removes.2.2 tslaQuotes tslaState
      "TSLA" "" ⟨"TSLA", 10, 200⟩
      (execute_sell tslaQuotes tslaState "TSLA" 10 "").1
      "TSLA" 10 (19998/100) (9999/5) (-1/5) (14999/5) 0
      rfl (Prod.ext rfl h2)).1
  · exact holdings_positive_zero_deleted_sell_all_removes.1
      [⟨"NVDA", 5, 15⟩] "MSFT" 3 50
      (by intro h hm; rw [List.mem_singleton.mp hm]; norm_num)
      ⟨"MSFT", 3, 50⟩
      (by norm_num [update_holding, get_holding, List.find?]
          simp)

/-! ## Claim C6 -/

/-- Quote source pricing AAPL at $150 (C6 scenario). -/
def aaplQuotes : String → Option Quote :=
  fun s => if s = "AAPL" then some ⟨150, 0⟩ else none

/-- $100,000 cash, no holdings, moderate profile (C6 scenario). -/
def aaplState : PState := ⟨100000, [], []⟩

/-- The `price` field of a buy result dict (`none` on a rejection). -/
def BuyResult.execPrice : BuyResult → Option ℚ
  | .filled _ _ p _ _ _ _ => some p
  | _ => none

/-- The `total` field of a buy result dict (`none` on a rejection). -/
def BuyResult.totalValue : BuyResult → Option ℚ
  | .filled _ _ _ t _ _ _ => some t
  | _ => none

/-- Counterexample to C6: the code rounds `exec_price` to 2 decimals
(`round(price * (1 + SLIPPAGE_PCT / 100), 2)`, line 31), so the scenario's buy
of 100 AAPL at a quoted $150 cannot execute at the 3-decimal $150.015: the
executed price is a whole-cent amount one rounding step away from that tie
(the exact decimal model rounds 150.015 half-even up to $150.02; CPython's
binary floats place `150 * 1.0001` just below the tie, giving $150.01), and on
neither side of the tie is it $150.015 or the total $15,001.50. The order is
accepted either way. -/
theorem buy_scenario_exec_price_rounded_counterexample :
    BuyResult.execPrice (execute_buy aaplQuotes "moderate" aaplState "AAPL" 100 "").2
      ≠ some (150015/1000)
    ∧ BuyResult.totalValue (execute_buy aaplQuotes "moderate" aaplState "AAPL" 100 "").2
      ≠ some (1500150/100)
    ∧ (execute_buy aaplQuotes "moderate" aaplState "AAPL" 100 "").2.success = true := by
  refine ⟨?_, ?_, ?_⟩ <;>
  norm_num [execute_buy, aaplQuotes, aaplState, execPriceBuy, round2,
    roundHalfEven, SLIPPAGE_PCT, truncQ, limits_for_moderate, moderate_limits,
    get_portfolio, sortOn, insertOn, totalMarketValue, priceOr,
    currentPositionValue, get_holding, distinctSymbols, update_holding,
    BuyResult.success, BuyResult.execPrice, BuyResult.totalValue,
    List.filter, List.find?, List.dedup_nil]

/-- C6 (amended): with $100,000 cash and the moderate profile, a buy of 100
AAPL at a quoted $150 is accepted; it executes at
`exec_price = round2 (150 × (1 + 0.01/100))` — a whole-cent price at or above
the quoted $150, not the unrounded $150.015 — with
`total = round2 (exec_price × 100)` and cash debited by that total. Which cent
the tie resolves to is representation-dependent ($150.02 under the exact
half-even decimal model used here, $150.01 under CPython's binary floats), so
this statement pins only the tie-robust facts. -/
theorem buy_scenario_accepted_at_rounded_exec_price :
    (execute_buy aaplQuotes "moderate" aaplState "AAPL" 100 "").2
      = .filled "AAPL" 100 (execPriceBuy 150) (round2 (execPriceBuy 150 * 100))
          (round2 (aaplState.cash - round2 (execPriceBuy 150 * 100))) 100
          (execPriceBuy 150)
    ∧ (150 : ℚ) ≤ execPriceBuy 150
    ∧ (∃ n : ℤ, execPriceBuy 150 = (n : ℚ) / 100)
    ∧ execPriceBuy 150 ≠ 150015/1000 := by
  refine ⟨?_, ?_, round2_shape _, ?_⟩ <;>
  norm_num [execute_buy, aaplQuotes, aaplState, execPriceBuy, round2,
    roundHalfEven, SLIPPAGE_PCT, truncQ, limits_for_moderate, moderate_limits,
    get_portfolio, sortOn, insertOn, totalMarketValue, priceOr,
    currentPositionValue, get_holding, distinctSymbols, update_holding,
    List.filter, List.find?, List.dedup_nil]

/-! ## Claim C7 -/

/-- Whether a buy rejection's payload carries the max-affordable share count
(only the `"Max affordable: {max_shares} shares"` message does). -/
def reportsMaxAffordable : BuyResult → Bool
  | .cashShort _ _ => true
  | _ => false

/-- Quote source pricing ZZZZ at $100 (C7 scenario). -/
def pennyQuotes : String → Option Quote :=
  fun s => if s = "ZZZZ" then some ⟨100, 0⟩ else none

/-- $50 cash, no holdings (C7 scenario). -/
def pennyState : PState := ⟨50, [], []⟩

/-- Counterexample to C7: a buy of 1 ZZZZ at exec_price $100.01 with only $50
cash is an InsufficientCash rejection (total_cost 100.01 > 50), yet because
not even one whole share is affordable the error payload is the
"Not enough cash. Need $…, have $…" message, which does not report the max
affordable whole-share quantity. -/
theorem insufficient_cash_without_max_affordable_counterexample :
    (execute_buy pennyQuotes "moderate" pennyState "ZZZZ" 1 "").2
      = .cashShortNoAffordable (10001/100) 50
    ∧ (10001/100 : ℚ) > 50
    ∧ reportsMaxAffordable
        (execute_buy pennyQuotes "moderate" pennyState "ZZZZ" 1 "").2 = false := by
  refine ⟨?_, by norm_num, ?_⟩ <;>
  norm_num [execute_buy, pennyQuotes, pennyState, execPriceBuy, round2,
    roundHalfEven, SLIPPAGE_PCT, truncQ, reportsMaxAffordable]

/-- C7 (amended): an InsufficientCash rejection reports the max affordable
whole-share quantity `int(cash / exec_price)` whenever at least one whole
share is affordable; when none is, it reports the required total and the
available cash instead; and `int(cash / exec_price)` is indeed the largest
whole-share count affordable at `exec_price`. -/
theorem insufficient_cash_reports_max_affordable_when_positive
    (quotes : String → Option Quote) (risk_profile : String) (σ : PState)
    (symbol : String) (shares : ℚ) (reasoning : String) (qt : Quote)
    (hq : quotes symbol = some qt) :
    (round2 (execPriceBuy qt.price * shares) > σ.cash →
      0 < truncQ (σ.cash / execPriceBuy qt.price) →
      (execute_buy quotes risk_profile σ symbol shares reasoning).2
        = .cashShort shares (truncQ (σ.cash / execPriceBuy qt.price)))
    ∧ (round2 (execPriceBuy qt.price * shares) > σ.cash →
      truncQ (σ.cash / execPriceBuy qt.price) ≤ 0 →
      (execute_buy quotes risk_profile σ symbol shares reasoning).2
        = .cashShortNoAffordable (round2 (execPriceBuy qt.price * shares)) σ.cash)
    ∧ (0 < execPriceBuy qt.price → 0 ≤ σ.cash →
      (truncQ (σ.cash / execPriceBuy qt.price) : ℚ) * execPriceBuy qt.price ≤ σ.cash
      ∧ σ.cash
        < ((truncQ (σ.cash / execPriceBuy qt.price) : ℚ) + 1) * execPriceBuy qt.price) := by
  refine ⟨fun hc hm => ?_, fun hc hm => ?_, fun hep hcash => ?_⟩
  · unfold execute_buy
    rw [hq]
    simp only []
    rw [if_pos hc, if_neg (by linarith : ¬ truncQ (σ.cash / execPriceBuy qt.price) ≤ 0)]
  · unfold execute_buy
    rw [hq]
    simp only []
    rw [if_pos hc, if_pos hm]
  · have hq0 : 0 ≤ σ.cash / execPriceBuy qt.price := div_nonneg hcash (le_of_lt hep)
    rw [truncQ, if_pos hq0]
    constructor
    · calc ((⌊σ.cash / execPriceBuy qt.price⌋ : ℚ)) * execPriceBuy qt.price
          ≤ (σ.cash / execPriceBuy qt.price) * execPriceBuy qt.price :=
            mul_le_mul_of_nonneg_right (Int.floor_le _) (le_of_lt hep)
        _ = σ.cash := div_mul_cancel₀ _ (ne_of_gt hep)
    · calc σ.cash = (σ.cash / execPriceBuy qt.price) * execPriceBuy qt.price :=
            (div_mul_cancel₀ _ (ne_of_gt hep)).symm
        _ < ((⌊σ.cash / execPriceBuy qt.price⌋ : ℚ) + 1) * execPriceBuy qt.price :=
            mul_lt_mul_of_pos_right (Int.lt_floor_add_one _) hep

/-- Quote source pricing ZZZZ at $100 with $500 cash: four whole shares are
affordable (C7 witness scenario). -/
def affordState : PState := ⟨500, [], []⟩

/-- Witness for C7 (amended): a buy of 10 ZZZZ with $500 cash is rejected
with the max-affordable count `int(500 / 100.01) = 4`, and 4 shares are
affordable while 5 are not. -/
theorem insufficient_cash_reports_max_affordable_when_positive_witness :
    (execute_buy pennyQuotes "moderate" affordState "ZZZZ" 10 "").2
      = .cashShort 10 (truncQ (affordState.cash / execPriceBuy 100))
    ∧ (truncQ (affordState.cash / execPriceBuy 100) : ℚ) * execPriceBuy 100
        ≤ affordState.cash
    ∧ affordState.cash
        < ((truncQ (affordState.cash / execPriceBuy 100) : ℚ) + 1) * execPriceBuy 100 := by
  have happ := insufficient_cash_reports_max_affordable_when_positive
    pennyQuotes "moderate" affordState "ZZZZ" 10 "" ⟨100, 0⟩ rfl
  refine ⟨happ.1 ?_ ?_, (happ.2.2 ?_ ?_).1, (happ.2.2 ?_ ?_).2⟩
  · norm_num [execPriceBuy, round2, roundHalfEven, SLIPPAGE_PCT, affordState]
  · norm_num [truncQ, execPriceBuy, round2, roundHalfEven, SLIPPAGE_PCT, affordState]
  · norm_num [execPriceBuy, round2, roundHalfEven, SLIPPAGE_PCT]
  · norm_num [affordState]
  · norm_num [execPriceBuy, round2, roundHalfEven, SLIPPAGE_PCT]
  · norm_num [affordState]

/-! ## Claim C8 -/

/-- `round2 0 = 0`. -/
theorem round2_zero : round2 0 = 0 := round2_eq_self ⟨0, by norm_num⟩

/-- A quote source that prices nothing (C8 scenario). -/
def flatQuotesNone : String → Option Quote := fun _ => none

/-- A quote source pricing AAPL at exactly its average cost with a flat day
change (C8 scenario). -/
def flatQuotesSome : String → Option Quote :=
  fun s => if s = "AAPL" then some ⟨50, 0⟩ else none

/-- $1,000 cash with a holding of 10 AAPL at average cost $50 (C8 scenario). -/
def flatState : PState := ⟨1000, [⟨"AAPL", 10, 50⟩], []⟩

/-- Counterexample to C8: with the quote for the held AAPL missing, the
summary is byte-for-byte identical to the summary with a live quote at
exactly `average_cost` and a flat day change — no `priced: false` (or any
other) marker distinguishes the fallback from a genuinely flat-priced
position. -/
theorem quote_fallback_indistinguishable_counterexample :
    get_portfolio_summary flatQuotesNone flatState
      = get_portfolio_summary flatQuotesSome flatState
    ∧ flatQuotesNone "AAPL" = none
    ∧ flatQuotesSome "AAPL" = some ⟨50, 0⟩ := by
  refine ⟨?_, rfl, rfl⟩
  norm_num [get_portfolio_summary, get_portfolio, flatQuotesNone, flatQuotesSome,
    flatState, sortOn, insertOn, enrichHolding, round2, roundHalfEven,
    List.filter]

/-- C8 (amended): when a live quote is unavailable for a held symbol, that
holding alone is valued with `current_price = average_cost`, `pnl = 0`,
`pnl_pct = 0` and `day_change = 0` (the summary never fails because a quote
is missing — `enrichHolding` is total), but the result carries no marker: the
enriched entry equals the one produced for a genuinely flat-priced position
quoted at exactly `average_cost` with zero day change. -/
theorem quote_fallback_uses_avg_cost_but_is_unmarked
    (qa qb : String → Option Quote) (h : Holding)
    (ha : qa h.symbol = none) (hb : qb h.symbol = some ⟨h.avg_cost, 0⟩) :
    enrichHolding qa h
      = ⟨h.symbol, h.shares, h.avg_cost, h.avg_cost, round2 (h.shares * h.avg_cost),
         round2 (h.shares * h.avg_cost), 0, 0, 0⟩
    ∧ enrichHolding qa h = enrichHolding qb h := by
  have h1 : enrichHolding qa h
      = ⟨h.symbol, h.shares, h.avg_cost, h.avg_cost, round2 (h.shares * h.avg_cost),
         round2 (h.shares * h.avg_cost), 0, 0, 0⟩ := by
    unfold enrichHolding
    rw [ha]
  refine ⟨h1, ?_⟩
  rw [h1]
  unfold enrichHolding
  rw [hb]
  simp [round2_zero]

/-- Witness for C8 (amended): the missing-quote fallback on the 10-AAPL
holding yields the avg-cost valuation and coincides with the live flat-quote
valuation. -/
theorem quote_fallback_uses_avg_cost_but_is_unmarked_witness :
    enrichHolding flatQuotesNone ⟨"AAPL", 10, 50⟩
      = ⟨"AAPL", 10, 50, 50, round2 (10 * 50), round2 (10 * 50), 0, 0, 0⟩
    ∧ enrichHolding flatQuotesNone ⟨"AAPL", 10, 50⟩
      = enrichHolding flatQuotesSome ⟨"AAPL", 10, 50⟩ :=
  quote_fallback_uses_avg_cost_but_is_unmarked flatQuotesNone flatQuotesSome
    ⟨"AAPL", 10, 50⟩ rfl rfl

/-! ## Claim C9 -/

theorem insertOn_perm (le : α → α → Bool) (x : α) (l : List α) :
    (insertOn le x l).Perm (x :: l) := by
  induction l with
  | nil => exact List.Perm.refl _
  | cons y ys ih =>
    unfold insertOn
    split
    · exact List.Perm.refl _
    · exact (ih.cons y).trans (List.Perm.swap x y ys)

theorem sortOn_perm (le : α → α → Bool) (l : List α) : (sortOn le l).Perm l := by
  induction l with
  | nil => exact List.Perm.refl _
  | cons x xs ih => exact (insertOn_perm le x (sortOn le xs)).trans (ih.cons x)

theorem distinctSymbols_perm {l l2 : List Holding} (hp : l.Perm l2) :
    (distinctSymbols l).Perm (distinctSymbols l2) :=
  ((hp.filter _).map _).dedup

/-- The distinct open symbols counted by the max-holdings check are, up to
order, those of the raw table. -/
theorem distinctSymbols_get_portfolio_perm (σ : PState) :
    (distinctSymbols (get_portfolio σ)).Perm (distinctSymbols σ.table) := by
  unfold get_portfolio
  refine (distinctSymbols_perm (sortOn_perm _ _)).trans ?_
  unfold distinctSymbols
  rw [List.filter_filter]
  have hff : (fun a => decide (0 < a.shares) && decide (0 < a.shares))
      = (fun (a : Holding) => decide (0 < a.shares)) := by
    funext a
    exact Bool.and_self _
  rw [hff]

/-- Ten open one-share positions A0…A9, $5 cash (C9 scenario: the distinct
holding count equals the moderate profile's `max_holdings = 10`, but the cash
cannot buy even one share of NEW). -/
def fullState : PState :=
  ⟨5, [⟨"A0", 1, 10⟩, ⟨"A1", 1, 10⟩, ⟨"A2", 1, 10⟩, ⟨"A3", 1, 10⟩, ⟨"A4", 1, 10⟩,
       ⟨"A5", 1, 10⟩, ⟨"A6", 1, 10⟩, ⟨"A7", 1, 10⟩, ⟨"A8", 1, 10⟩, ⟨"A9", 1, 10⟩], []⟩

/-- Quote source pricing only the candidate symbol NEW, at $100. -/
def newQuotes : String → Option Quote :=
  fun s => if s = "NEW" then some ⟨100, 0⟩ else none

/-- Whether a buy result is the max-holdings risk-limit rejection. -/
def isRiskMaxHoldings : BuyResult → Bool
  | .riskMaxHoldings _ _ => true
  | _ => false

/-- Whether a buy result is one of the rejections checked before the
max-holdings check (quote, cash, position size, cash reserve). -/
def isEarlierCheck : BuyResult → Bool
  | .quoteUnavailable _ => true
  | .cashShortNoAffordable _ _ => true
  | .cashShort _ _ => true
  | .riskPosition _ _ _ => true
  | .riskCashReserve _ _ => true
  | .riskMaxHoldings _ _ => false
  | .filled _ _ _ _ _ _ _ => false

/-- Counterexample to C9: buying the new symbol NEW with ten distinct open
positions (exactly `max_holdings` for the moderate profile) is rejected, but
with the insufficient-cash error — the cash check at line 36 runs before the
max-holdings check at line 81 — not with the max-holdings risk-limit error
the claim promises. -/
theorem max_holdings_rejection_preempted_counterexample :
    "NEW" ∉ distinctSymbols (get_portfolio fullState)
    ∧ (distinctSymbols (get_portfolio fullState)).length
        = (limits_for "moderate").max_holdings
    ∧ (execute_buy newQuotes "moderate" fullState "NEW" 1 "").2
        = .cashShortNoAffordable (10001/100) 5
    ∧ isRiskMaxHoldings
        ((execute_buy newQuotes "moderate" fullState "NEW" 1 "").2) = false := by
  have hperm := distinctSymbols_get_portfolio_perm fullState
  have hd : distinctSymbols fullState.table
      = ["A0", "A1", "A2", "A3", "A4", "A5", "A6", "A7", "A8", "A9"] := by
    norm_num [distinctSymbols, fullState, List.filter]
    exact List.dedup_eq_self.mpr (by simp)
  refine ⟨?_, ?_, ?_, ?_⟩
  · rw [hperm.mem_iff, hd]
    simp
  · rw [hperm.length_eq, hd, limits_for_moderate]
    rfl
  · norm_num [execute_buy, newQuotes, fullState, execPriceBuy, round2,
      roundHalfEven, SLIPPAGE_PCT, truncQ]
  · norm_num [execute_buy, newQuotes, fullState, execPriceBuy, round2,
      roundHalfEven, SLIPPAGE_PCT, truncQ, isRiskMaxHoldings]

/-- C9 (amended): a buy of a symbol that is not an open position, when the
distinct open positions already reach the profile's `max_holdings`, never
fills; it is rejected with the max-holdings risk-limit error whenever it gets
past the quote, cash, position-size and cash-reserve checks, and otherwise
with that earlier check's error. -/
theorem new_symbol_at_max_holdings_never_fills
    (quotes : String → Option Quote) (risk_profile : String) (σ : PState)
    (symbol : String) (shares : ℚ) (reasoning : String)
    (hnew : symbol ∉ distinctSymbols (get_portfolio σ))
    (hfull : (limits_for risk_profile).max_holdings
              ≤ (distinctSymbols (get_portfolio σ)).length) :
    (execute_buy quotes risk_profile σ symbol shares reasoning).2.success = false
    ∧ (isEarlierCheck (execute_buy quotes risk_profile σ symbol shares reasoning).2
          = false →
        (execute_buy quotes risk_profile σ symbol shares reasoning).2
          = .riskMaxHoldings (distinctSymbols (get_portfolio σ)).length
              (limits_for risk_profile).max_holdings) := by
  unfold execute_buy
  rcases hq : quotes symbol with _ | qt <;> simp only [hq]
  · simp [BuyResult.success, isEarlierCheck]
  · repeat' split
    all_goals try simp [BuyResult.success, isEarlierCheck]
    all_goals exact absurd (show symbol ∉ distinctSymbols (get_portfolio σ)
      ∧ (distinctSymbols (get_portfolio σ)).length
          ≥ (limits_for risk_profile).max_holdings from ⟨hnew, hfull⟩) (by assumption)

/-- Five open positions A0…A4 with ample cash — exactly `max_holdings` for
the safe profile (C9 witness scenario). -/
def fiveState : PState :=
  ⟨100000, [⟨"A0", 1, 10⟩, ⟨"A1", 1, 10⟩, ⟨"A2", 1, 10⟩, ⟨"A3", 1, 10⟩,
            ⟨"A4", 1, 10⟩], []⟩

/-- Witness for C9 (amended): under the safe profile with five open
positions, a buy of NEW never fills; if no earlier check rejected it, the
rejection is the max-holdings error. -/
theorem new_symbol_at_max_holdings_never_fills_witness :
    (execute_buy newQuotes "safe" fiveState "NEW" 1 "").2.success = false
    ∧ (isEarlierCheck (execute_buy newQuotes "safe" fiveState "NEW" 1 "").2 = false →
        (execute_buy newQuotes "safe" fiveState "NEW" 1 "").2
          = .riskMaxHoldings (distinctSymbols (get_portfolio fiveState)).length
              (limits_for "safe").max_holdings) := by
  have hperm := distinctSymbols_get_portfolio_perm fiveState
  have hd : distinctSymbols fiveState.table = ["A0", "A1", "A2", "A3", "A4"] := by
    norm_num [distinctSymbols, fiveState, List.filter]
    exact List.dedup_eq_self.mpr (by simp)
  exact new_symbol_at_max_holdings_never_fills newQuotes "safe" fiveState "NEW" 1 ""
    (by rw [hperm.mem_iff, hd]; simp)
    (by rw [hperm.length_eq, hd, limits_for_safe]; norm_num [safe_limits])

/-! ## Claim C10 -/

/-- Quote source pricing AAPL at $150 and TSLA at $10 (C10 scenario). -/
def mixedQuotes : String → Option Quote :=
  fun s => if s = "AAPL" then some ⟨150, 0⟩
           else if s = "TSLA" then some ⟨10, 0⟩ else none

/-- $100,000 cash and a holding of 10 TSLA at average cost $10
(C10 scenario). -/
def mixedState : PState := ⟨100000, [⟨"TSLA", 10, 10⟩], []⟩

/-- C10: neither `execute_buy` nor `execute_sell` validates that the share
count is positive. A buy of −10 AAPL has negative total cost, passes the cash
check and every risk check, fills, and *increases* the cash balance by
$1,500.20 while appending a trade; a sell of −5 TSLA likewise fills and
*raises* the held TSLA position from 10 to 15 shares. -/
theorem negative_share_orders_pass_checks_and_mutate_ledger :
    (execute_buy mixedQuotes "moderate" mixedState "AAPL" (-10) "").2.success = true
    ∧ (execute_buy mixedQuotes "moderate" mixedState "AAPL" (-10) "").1.cash
        = 1015002/10
    ∧ mixedState.cash
        < (execute_buy mixedQuotes "moderate" mixedState "AAPL" (-10) "").1.cash
    ∧ (execute_buy mixedQuotes "moderate" mixedState "AAPL" (-10) "").1.trades
        ≠ mixedState.trades
    ∧ (execute_sell mixedQuotes mixedState "TSLA" (-5) "").2.success = true
    ∧ held_shares (execute_sell mixedQuotes mixedState "TSLA" (-5) "").1 "TSLA" = 15 := by
  have hbuy : execute_buy mixedQuotes "moderate" mixedState "AAPL" (-10) ""
      = (⟨1015002/10, [⟨"TSLA", 10, 10⟩],
          [⟨"AAPL", "buy", -10, 7501/50, -7501/5, ""⟩]⟩,
         .filled "AAPL" (-10) (7501/50) (-7501/5) (1015002/10) (-10) (7501/50)) := by
    have hgp : get_portfolio mixedState = [⟨"TSLA", 10, 10⟩] := by
      norm_num [get_portfolio, mixedState, sortOn, insertOn, List.filter]
    have htmv : totalMarketValue mixedQuotes (get_portfolio mixedState) = 100 := by
      rw [hgp]
      simp [totalMarketValue, priceOr, mixedQuotes]
      norm_num
    have hds : distinctSymbols (get_portfolio mixedState) = ["TSLA"] := by
      rw [hgp]
      norm_num [distinctSymbols, List.filter]
    have hcpv : currentPositionValue mixedState "AAPL" (7501/50) = 0 := rfl
    have hgh : get_holding mixedState.table "AAPL" = none := rfl
    have hupd : update_holding mixedState.table "AAPL" (-10) (7501/50)
        = [⟨"TSLA", 10, 10⟩] := rfl
    have hq1 : mixedQuotes "AAPL" = some ⟨150, 0⟩ := rfl
    have hc : mixedState.cash = 100000 := rfl
    have htr : mixedState.trades = [] := rfl
    unfold execute_buy
    rw [hq1]
    simp only []
    rw [hgh]
    norm_num [execPriceBuy, round2, roundHalfEven, SLIPPAGE_PCT, truncQ,
      limits_for_moderate, moderate_limits, hc, htmv, hcpv, hds, htr, hupd]
  have hsell : execute_sell mixedQuotes mixedState "TSLA" (-5) ""
      = (⟨99950, [⟨"TSLA", 15, 10⟩],
          [⟨"TSLA", "sell", -5, 10, -50, ""⟩]⟩,
         .sold "TSLA" (-5) 10 (-50) 0 99950 15) := by
    have hghT : get_holding mixedState.table "TSLA" = some ⟨"TSLA", 10, 10⟩ := rfl
    have hq2 : mixedQuotes "TSLA" = some ⟨10, 0⟩ := rfl
    have hupdT : update_holding mixedState.table "TSLA" 15 10
        = [⟨"TSLA", 15, 10⟩] := rfl
    have hc : mixedState.cash = 100000 := rfl
    have htr : mixedState.trades = [] := rfl
    unfold execute_sell
    rw [hghT]
    simp only []
    rw [hq2]
    norm_num [execPriceSell, round2, round4, roundHalfEven, SLIPPAGE_PCT,
      hc, htr, hupdT]
  rw [hbuy, hsell]
  refine ⟨rfl, rfl, by norm_num [mixedState], by simp [mixedState], rfl, rfl⟩
